import Mathlib

/-!
# Verification of the `TraceCollector` core (pxr/base/lib/trace/collector.h)

A shallow embedding of the trace event collector: the enable gate, the
per-thread event buffers with their writing-flag append protocol, the
payload dispatch (inline vs. arena), scope fusion, counters, and the
harvest that bundles per-thread event lists into a collection.

Machine values are modelled as `Nat` (key handles, category ids, timestamps,
payload bit patterns, bytes); `std::atomic<int> _isEnabled` is an `Int`.
Arena pointers are modelled as stable indices into an append-only list of
byte strings. Each operation additionally returns the list of atomic
actions it performed, so that the memory-order protocol of the source can
be stated and checked.
-/

set_option autoImplicit false

namespace TraceModel

/-- The category tag `TraceCategoryId` (a small integer tag; `TraceCategory::Default` is 0). -/
abbrev TraceCategoryId := Nat

/-- The `TraceEvent::TimeStamp` type: a monotonic tick count. -/
abbrev TimeStamp := Nat

/-- A key handle (`TraceKey` / interned dynamic key), modelled as its stable
64-bit identity. -/
abbrev TraceKey := Nat

/-- The event kinds of `TraceEvent::EventType` (spec §3). -/
inductive EventType where
  | Begin
  | End
  | Timespan
  | CounterDelta
  | CounterValue
  | Data
  | ScopeData
  | Marker
deriving DecidableEq, Repr

/-- The word-sized payload union of a `TraceEvent`: empty, an inline bit
pattern (bool / i64 / f64 bits), a pointer into the owning list's arena
(modelled as an index), or the start time of a `Timespan`. -/
inductive PayloadValue where
  | empty
  | bits (v : Nat)
  | ptr (i : Nat)
  | time (t : TimeStamp)
deriving DecidableEq, Repr

/-- A `TraceEvent`: kind, key, category, timestamp, payload. -/
structure TraceEvent where
  type : EventType
  key : TraceKey
  cat : TraceCategoryId
  time : TimeStamp
  payload : PayloadValue
deriving DecidableEq, Repr

/-- C-string image of a byte sequence: the bytes up to the first NUL.  This
is what a `const char*` denotes, and what survives `std::string::c_str()`
when the pointer is handed to a C-string consumer. -/
def cStr (bs : List Nat) : List Nat :=
  bs.takeWhile (fun b => b ≠ 0)

/-- The value of `sizeof(uintptr_t)` on the modelled platform (64-bit): 8 bytes. -/
def uintptrSize : Nat := 8

/-- Little-endian encoding of a byte sequence into one machine word, used
for payloads stored inline in the event. -/
def encodeBits (bs : List Nat) : Nat :=
  bs.foldr (fun b acc => b + 256 * acc) 0

/-- Modelled from the spec: `TraceCollection::EventList` (collection.h is
not part of the sources; §3/§4.3 of the spec describe it): an append-only
sequence of events plus a byte arena for large payloads whose addresses
(modelled as indices) stay valid for the list's lifetime. -/
structure EventList where
  events : List TraceEvent
  arena : List (List Nat)
deriving DecidableEq, Repr

/-- A fresh, empty `EventList`. -/
def EventList.empty : EventList := ⟨[], []⟩

/-- Modelled from the spec: `EventList::EmplaceBack` appends one event
(§4.3: amortized O(1) append, append-only until sealed). -/
def EventList.emplaceBack (l : EventList) (e : TraceEvent) : EventList :=
  { l with events := l.events ++ [e] }

/-- Modelled from the spec: `EventList::StoreData` copies bytes into the
payload arena and returns their stable address (§4.3: chunked bump
allocator, returned addresses stable for the list's lifetime).  The
address is the index of the copied entry. -/
def EventList.storeBytes (l : EventList) (bs : List Nat) : EventList × Nat :=
  ({ l with arena := l.arena ++ [bs] }, l.arena.length)

/-- Memory orders used by the collector's atomics. -/
inductive MemOrder where
  | relaxed
  | acquire
  | release
  | acqRel
  | seqCst
deriving DecidableEq, Repr

/-- One atomic/stateful action performed by an operation, in program order.
`listWrite` is a mutation of the event list the operation loaded
(an event append, an arena copy, or the scope-fusion rewrite). -/
inductive Action where
  | loadEnabled (ord : MemOrder) (value : Int)
  | allocThreadData (tid : Nat)
  | storeWriting (v : Bool) (ord : MemOrder)
  | loadEvents (ord : MemOrder)
  | listWrite
deriving DecidableEq, Repr

/-- Whether an action allocates or mutates collector / per-thread state
(the gate load does neither). -/
def Action.mutates : Action → Bool
  | .loadEnabled _ _ => false
  | .allocThreadData _ => true
  | .storeWriting _ _ => true
  | .loadEvents _ => false
  | .listWrite => true

/-- The `TraceCollector::_PerThreadData` slot: the per-producer slot — its thread
index, the `writing` handshake flag, and the current `EventList` (held in
the source behind `std::atomic<EventList*> _events`). -/
structure PerThreadData where
  threadIndex : Nat
  writing : Bool
  events : EventList
deriving DecidableEq, Repr

/-- A freshly created slot for thread `tid` (empty list, not writing). -/
def freshPerThreadData (tid : Nat) : PerThreadData :=
  ⟨tid, false, EventList.empty⟩

/-- The `AtomicRef` RAII guard around every append
(collector.h:500-510 and its uses): store `writing := true` (release),
acquire-load the current `EventList`, run the body on it, then store
`writing := false` (release).  The emitted action trace records exactly
these steps in program order. -/
def PerThreadData.withAtomicRef (t : PerThreadData)
    (f : EventList → EventList × List Action) : PerThreadData × List Action :=
  let r := f t.events
  ({ t with writing := false, events := r.1 },
    Action.storeWriting true .release ::
      Action.loadEvents .acquire ::
        (r.2 ++ [Action.storeWriting false .release]))

/-- Modelled from the spec: `_PerThreadData::_EndScope` is only declared in
collector.h (its body lives outside the sources); per §4.2 it peeks the
immediately preceding event and, when that event is the matching `Begin`
with the same key and category, rewrites the pair into a single `Timespan`
event (start = the Begin's time, end = now); otherwise it appends an `End`
event. -/
def EventList.endScopeImpl (l : EventList) (key : TraceKey)
    (cat : TraceCategoryId) (now : TimeStamp) : EventList :=
  match l.events.getLast? with
  | some e =>
    if e.type = .Begin ∧ e.key = key ∧ e.cat = cat then
      { l with events :=
          l.events.dropLast ++ [⟨.Timespan, key, cat, now, .time e.time⟩] }
    else
      l.emplaceBack ⟨.End, key, cat, now, .empty⟩
  | none => l.emplaceBack ⟨.End, key, cat, now, .empty⟩

/-- Payload data routed to `StoreLargeData`: either a sized value
(`const T&` with `sizeof(T) = bytes.length`) or a C string pointer
(`const char*`), whose arena copy is its C-string image. -/
inductive LargeData where
  | sized (bytes : List Nat)
  | cstr (bytes : List Nat)
deriving DecidableEq, Repr

/-- The bytes the arena actually receives for a large payload: a sized
value contributes its `sizeof` bytes; a `const char*` contributes the
bytes up to the terminating NUL (the pointer carries no length). -/
def LargeData.storedBytes : LargeData → List Nat
  | .sized bs => bs
  | .cstr bs => cStr bs

/-- The per-thread append operations of `_PerThreadData` (collector.h:430-476).
`beginEventOp`/`endEventOp` bodies are TRACE_API (outside the sources) and
are modelled from the spec (§4.1: stamp the time, append `Begin`/`End`). -/
inductive SlotOp where
  | beginEventOp (key : TraceKey) (cat : TraceCategoryId)
  | endEventOp (key : TraceKey) (cat : TraceCategoryId)
  | beginScope (key : TraceKey) (cat : TraceCategoryId)
  | endScope (key : TraceKey) (cat : TraceCategoryId)
  | scopeEvent (key : TraceKey) (start : TimeStamp) (cat : TraceCategoryId)
  | storeDataSmall (key : TraceKey) (bits : Nat) (cat : TraceCategoryId)
  | storeLargeData (key : TraceKey) (d : LargeData) (cat : TraceCategoryId)
  | counterDelta (key : TraceKey) (bits : Nat) (cat : TraceCategoryId)
  | counterValue (key : TraceKey) (bits : Nat) (cat : TraceCategoryId)
deriving DecidableEq, Repr

/-- Run one per-thread append operation at time `now`. Every operation goes
through the `AtomicRef` guard, mirroring `BeginScope`, `EndScope`,
`StoreData`, `StoreLargeData` and `EmplaceEvent` in collector.h:438-476.
Counter events carry the f64 bit pattern of the passed value
(`EmplaceEvent(TraceEvent::CounterDelta, key, delta, cat)` etc.). -/
def runSlotOp (op : SlotOp) (now : TimeStamp) (t : PerThreadData) :
    PerThreadData × List Action :=
  match op with
  | .beginEventOp key cat =>
    t.withAtomicRef fun l =>
      (l.emplaceBack ⟨.Begin, key, cat, now, .empty⟩, [.listWrite])
  | .endEventOp key cat =>
    t.withAtomicRef fun l =>
      (l.emplaceBack ⟨.End, key, cat, now, .empty⟩, [.listWrite])
  | .beginScope key cat =>
    t.withAtomicRef fun l =>
      (l.emplaceBack ⟨.Begin, key, cat, now, .empty⟩, [.listWrite])
  | .endScope key cat =>
    t.withAtomicRef fun l =>
      (l.endScopeImpl key cat now, [.listWrite])
  | .scopeEvent key start cat =>
    t.withAtomicRef fun l =>
      (l.emplaceBack ⟨.Timespan, key, cat, now, .time start⟩, [.listWrite])
  | .storeDataSmall key bits cat =>
    t.withAtomicRef fun l =>
      (l.emplaceBack ⟨.Data, key, cat, now, .bits bits⟩, [.listWrite])
  | .storeLargeData key d cat =>
    t.withAtomicRef fun l =>
      let r := l.storeBytes d.storedBytes
      (r.1.emplaceBack ⟨.Data, key, cat, now, .ptr r.2⟩, [.listWrite, .listWrite])
  | .counterDelta key bits cat =>
    t.withAtomicRef fun l =>
      (l.emplaceBack ⟨.CounterDelta, key, cat, now, .bits bits⟩, [.listWrite])
  | .counterValue key bits cat =>
    t.withAtomicRef fun l =>
      (l.emplaceBack ⟨.CounterValue, key, cat, now, .bits bits⟩, [.listWrite])

/-- The four-step append protocol of §4.2: `writing := true` (release),
acquire-load the current list, perform only writes to that list, then
`writing := false` (release). -/
def followsAppendProtocol (acts : List Action) : Prop :=
  ∃ ws : List Action,
    acts = Action.storeWriting true .release ::
      Action.loadEvents .acquire ::
        (ws ++ [Action.storeWriting false .release]) ∧
    ∀ a ∈ ws, a = Action.listWrite

/-- A value passed to `StoreData` / the data-argument variants: a
non-pointer trivially copyable scalar of `sizeof = bytes.length`, a
`const char*`, or a `std::string` (whose byte content may contain NULs). -/
inductive StorableValue where
  | scalar (bytes : List Nat)
  | cString (bytes : List Nat)
  | stdString (bytes : List Nat)
deriving DecidableEq, Repr

/-- The `TraceCollector::_StoreData` overloads (collector.h:368-403): compile-time
dispatch on the payload type.  A non-pointer `T` with
`sizeof(T) <= sizeof(uintptr_t)` is stored inline with the event; a larger
`T` goes through `StoreLargeData`; `const char*` goes through
`StoreLargeData` as a C string; `std::string` is passed on as
`value.c_str()`, i.e. as a C string pointer. -/
def storeDataSlot (key : TraceKey) (cat : TraceCategoryId)
    (v : StorableValue) (now : TimeStamp) (t : PerThreadData) :
    PerThreadData × List Action :=
  match v with
  | .scalar bytes =>
    if bytes.length ≤ uintptrSize then
      runSlotOp (.storeDataSmall key (encodeBits bytes) cat) now t
    else
      runSlotOp (.storeLargeData key (.sized bytes) cat) now t
  | .cString bytes => runSlotOp (.storeLargeData key (.cstr bytes) cat) now t
  | .stdString bytes => runSlotOp (.storeLargeData key (.cstr bytes) cat) now t

/-- The `TraceCollector::_StoreDataRec` recursion over an already-paired argument pack:
store each (key, value) pair in order; the empty pack is the base case
(collector.h:405-415). -/
def storeDataFold (pack : List (TraceKey × StorableValue))
    (cat : TraceCategoryId) (now : TimeStamp) (t : PerThreadData) :
    PerThreadData × List Action :=
  match pack with
  | [] => (t, [])
  | (k, v) :: rest =>
    let r1 := storeDataSlot k cat v now t
    let r2 := storeDataFold rest cat now r1.1
    (r2.1, r1.2 ++ r2.2)

/-- The shared state of `TraceCollector`: the `std::atomic<int> _isEnabled`
gate and the registry of per-thread slots (`_allPerThreadData`), keyed by
thread id. -/
structure CollectorState where
  isEnabledGate : Int
  threads : List (Nat × PerThreadData)
deriving DecidableEq, Repr

/-- The gate check `TraceCollector::IsEnabled` (collector.h:94-96): acquire-load the gate
and compare the loaded value with 1.  Returns the boolean together with
the load action performed. -/
def IsEnabled (s : CollectorState) : Bool × Action :=
  (s.isEnabledGate == 1, .loadEnabled .acquire s.isEnabledGate)

/-- Look up the per-thread slot registered for `tid`. -/
def CollectorState.findThread (s : CollectorState) (tid : Nat) :
    Option PerThreadData :=
  (s.threads.find? (fun p => p.1 == tid)).map Prod.snd

/-- The `TraceCollector::_GetThreadData` step followed by a slot operation `f`:
return the existing slot for `tid`, or create and register a fresh one
(collector.h:345-347: "Return a pointer to existing per-thread data or
create one if none exists"), then run `f` on it and write the result
back.  Creating a slot is recorded as an allocation action. -/
def CollectorState.withThreadData (s : CollectorState) (tid : Nat)
    (f : PerThreadData → PerThreadData × List Action) :
    CollectorState × List Action :=
  match s.findThread tid with
  | some t =>
    let r := f t
    ({ s with threads :=
        s.threads.map (fun p => if p.1 = tid then (tid, r.1) else p) }, r.2)
  | none =>
    let r := f (freshPerThreadData tid)
    ({ s with threads := s.threads ++ [(tid, r.1)] },
      Action.allocThreadData tid :: r.2)

/-- The public record operations of `TraceCollector` exercised by the
claims (collector.h:123-322).  `beginEvent`/`endEvent` take interned
dynamic keys, modelled by their stable handles. -/
inductive CollectorOp where
  | beginEvent (key : TraceKey) (cat : TraceCategoryId)
  | endEvent (key : TraceKey) (cat : TraceCategoryId)
  | beginScope (key : TraceKey) (cat : TraceCategoryId)
  | endScope (key : TraceKey) (cat : TraceCategoryId)
  | scope (key : TraceKey) (start : TimeStamp) (cat : TraceCategoryId)
  | storeData (key : TraceKey) (v : StorableValue) (cat : TraceCategoryId)
  | recordCounterDelta (key : TraceKey) (bits : Nat) (cat : TraceCategoryId)
  | recordCounterValue (key : TraceKey) (bits : Nat) (cat : TraceCategoryId)
  | scopeArgs (cat : TraceCategoryId) (pack : List (TraceKey × StorableValue))
deriving DecidableEq, Repr

/-- Run one public record operation issued by thread `tid` at time `now`.
Every operation first checks the gate (`if (ARCH_LIKELY(!IsEnabled()))
return;`) and, when disabled, does nothing further; `BeginEvent`/`EndEvent`
then return timestamp 0 (collector.h:120-144).  When enabled, the
operation fetches (or creates) the caller's slot and appends through it.
The bodies of `BeginEvent`/`EndEvent` are TRACE_API (outside the sources)
and are modelled from the spec (§4.1: stamp the current time, append, and
return the assigned timestamp). -/
def runOp (op : CollectorOp) (tid : Nat) (now : TimeStamp)
    (s : CollectorState) : CollectorState × Option TimeStamp × List Action :=
  let gate := IsEnabled s
  if gate.1 then
    match op with
    | .beginEvent key cat =>
      let r := s.withThreadData tid (runSlotOp (.beginEventOp key cat) now)
      (r.1, some now, gate.2 :: r.2)
    | .endEvent key cat =>
      let r := s.withThreadData tid (runSlotOp (.endEventOp key cat) now)
      (r.1, some now, gate.2 :: r.2)
    | .beginScope key cat =>
      let r := s.withThreadData tid (runSlotOp (.beginScope key cat) now)
      (r.1, none, gate.2 :: r.2)
    | .endScope key cat =>
      let r := s.withThreadData tid (runSlotOp (.endScope key cat) now)
      (r.1, none, gate.2 :: r.2)
    | .scope key start cat =>
      let r := s.withThreadData tid (runSlotOp (.scopeEvent key start cat) now)
      (r.1, none, gate.2 :: r.2)
    | .storeData key v cat =>
      let r := s.withThreadData tid (storeDataSlot key cat v now)
      (r.1, none, gate.2 :: r.2)
    | .recordCounterDelta key bits cat =>
      let r := s.withThreadData tid (runSlotOp (.counterDelta key bits cat) now)
      (r.1, none, gate.2 :: r.2)
    | .recordCounterValue key bits cat =>
      let r := s.withThreadData tid (runSlotOp (.counterValue key bits cat) now)
      (r.1, none, gate.2 :: r.2)
    | .scopeArgs cat pack =>
      let r := s.withThreadData tid (storeDataFold pack cat now)
      (r.1, none, gate.2 :: r.2)
  else
    match op with
    | .beginEvent _ _ => (s, some 0, [gate.2])
    | .endEvent _ _ => (s, some 0, [gate.2])
    | _ => (s, none, [gate.2])

/-- Run a sequence of record operations, each given as
(operation, issuing thread id, current time). -/
def runOps (ops : List (CollectorOp × Nat × TimeStamp))
    (s : CollectorState) : CollectorState :=
  ops.foldl (fun s c => (runOp c.1 c.2.1 c.2.2 s).1) s

/-- The slot observed for thread `tid`: the registered one, or (for a
thread that has not recorded yet) the fresh slot it would receive. -/
def CollectorState.slotOf (s : CollectorState) (tid : Nat) : PerThreadData :=
  (s.findThread tid).getD (freshPerThreadData tid)

/-- The events currently recorded for thread `tid` ([] when the thread has
no slot yet). -/
def CollectorState.eventsOf (s : CollectorState) (tid : Nat) :
    List TraceEvent :=
  (s.slotOf tid).events.events

/-- The payload arena currently held for thread `tid` ([] when the thread
has no slot yet). -/
def CollectorState.arenaOf (s : CollectorState) (tid : Nat) :
    List (List Nat) :=
  (s.slotOf tid).events.arena

/-- All events currently recorded in the collector, thread by thread. -/
def CollectorState.allEvents (s : CollectorState) : List TraceEvent :=
  (s.threads.map (fun p => p.2.events.events)).flatten

/-- The `TraceCollection` snapshot: the bundle of (thread id, sealed event
list) pairs handed to consumers. -/
structure TraceCollection where
  lists : List (Nat × EventList)
deriving DecidableEq, Repr

/-- All events contained in a collection, thread by thread. -/
def TraceCollection.allEvents (c : TraceCollection) : List TraceEvent :=
  (c.lists.map (fun p => p.2.events)).flatten

/-- The snapshot the harvest forms: one (thread id, event list) pair per
registered slot whose list is non-empty (§4.5 step 4). -/
def CollectorState.snapshotLists (s : CollectorState) :
    List (Nat × EventList) :=
  s.threads.filterMap
    (fun p => if p.2.events.events.isEmpty then none else some (p.1, p.2.events))

/-- The observable outcome of one `CreateCollection` call: the collector
state afterwards, the value handed back to the caller (`none` models the
`void` return of `TRACE_API void CreateCollection();`), and the payload of
the `TraceCollectionAvailable` notice issued. -/
structure CreateCollectionResult where
  state : CollectorState
  returned : Option TraceCollection
  notice : Option TraceCollection
deriving DecidableEq, Repr

/-- Modelled from the spec: the body of `TraceCollector::CreateCollection`
is TRACE_API (outside the sources).  Per §4.5 the harvest swaps every
slot's event list for a fresh empty one, bundles the non-empty old lists
into an immutable `TraceCollection`, and issues a
`TraceCollectionAvailable` notice carrying it; per the declaration
`TRACE_API void CreateCollection();` (collector.h:335) the call returns
`void`, modelled as `returned = none`. -/
def CreateCollection (s : CollectorState) : CreateCollectionResult :=
  { state :=
      { s with
        threads :=
          s.threads.map (fun p => (p.1, { p.2 with events := EventList.empty })) }
    returned := none
    notice := some ⟨s.snapshotLists⟩ }

/-- The `static_assert` guarding every variadic data-argument pack
(collector.h:176-177, 193-194, 236-237, 254-255):
`sizeof...(Args) % 2 == 0`, i.e. "Data arguments must come in pairs". -/
def dataPairsStaticAssert (numArgs : Nat) : Bool :=
  numArgs % 2 == 0

/-- One argument of a variadic data pack: a key position or a value
position. -/
inductive PackArg where
  | key (k : TraceKey)
  | val (v : StorableValue)
deriving DecidableEq, Repr

/-- The flat argument pack denoted by a list of (key, value) pairs, as it
appears to `sizeof...(Args)`. -/
def flattenPack (pairs : List (TraceKey × StorableValue)) : List PackArg :=
  pairs.flatMap (fun p => [PackArg.key p.1, PackArg.val p.2])

/-! ## Registry lemmas

How `withThreadData` (the `_GetThreadData` + write-back pattern) interacts
with slot lookup. -/

theorem find?_map_update_self (l : List (Nat × PerThreadData)) (tid : Nat)
    (t' : PerThreadData) (h : (l.find? (fun p => p.1 == tid)).isSome) :
    (l.map (fun p => if p.1 = tid then (tid, t') else p)).find?
      (fun p => p.1 == tid) = some (tid, t') := by
  induction l with
  | nil => simp at h
  | cons p rest ih =>
    by_cases hp : p.1 = tid
    · simp only [List.map_cons, if_pos hp]
      exact List.find?_cons_of_pos _ (by simp)
    · have hb : (p.1 == tid) = false := by simp [hp]
      simp only [List.find?_cons, hb] at h
      simp only [List.map_cons, if_neg hp, List.find?_cons, hb]
      exact ih h

theorem find?_map_update_other (l : List (Nat × PerThreadData))
    (tid tid' : Nat) (t' : PerThreadData) (h : tid' ≠ tid) :
    (l.map (fun p => if p.1 = tid then (tid, t') else p)).find?
      (fun p => p.1 == tid') = l.find? (fun p => p.1 == tid') := by
  induction l with
  | nil => rfl
  | cons p rest ih =>
    by_cases hp : p.1 = tid
    · have h1 : (tid == tid') = false := by
        simp [Ne.symm h]
      have h2 : (p.1 == tid') = false := by
        simp [hp, Ne.symm h]
      simp [List.find?_cons, hp, h1, h2, ih]
    · simp only [List.map_cons, if_neg hp]
      rw [List.find?_cons, List.find?_cons]
      cases hq : (p.1 == tid') <;> simp [hq, ih]

theorem withThreadData_findThread_self (s : CollectorState) (tid : Nat)
    (f : PerThreadData → PerThreadData × List Action) :
    (s.withThreadData tid f).1.findThread tid = some (f (s.slotOf tid)).1 := by
  unfold CollectorState.withThreadData CollectorState.slotOf
  cases hf : s.findThread tid with
  | some t =>
    have hsome : ((s.threads.find? (fun p => p.1 == tid)).isSome) := by
      unfold CollectorState.findThread at hf
      cases hq : s.threads.find? (fun p => p.1 == tid) <;> simp [hq] at hf ⊢
    unfold CollectorState.findThread
    rw [find?_map_update_self s.threads tid (f t).1 hsome]
    rfl
  | none =>
    have hnone : s.threads.find? (fun p => p.1 == tid) = none := by
      unfold CollectorState.findThread at hf
      cases hq : s.threads.find? (fun p => p.1 == tid) <;> simp [hq] at hf ⊢
    simp [CollectorState.findThread, List.find?_append, hnone]

theorem withThreadData_findThread_other (s : CollectorState) (tid tid' : Nat)
    (f : PerThreadData → PerThreadData × List Action) (h : tid' ≠ tid) :
    (s.withThreadData tid f).1.findThread tid' = s.findThread tid' := by
  unfold CollectorState.withThreadData
  cases hf : s.findThread tid with
  | some t =>
    simp [CollectorState.findThread,
      find?_map_update_other s.threads tid tid' (f t).1 h]
  | none =>
    have h1 : (tid == tid') = false := by simp [Ne.symm h]
    simp [CollectorState.findThread, List.find?_append, List.find?_cons, h1]

theorem withThreadData_slotOf_self (s : CollectorState) (tid : Nat)
    (f : PerThreadData → PerThreadData × List Action) :
    (s.withThreadData tid f).1.slotOf tid = (f (s.slotOf tid)).1 := by
  simp [CollectorState.slotOf, withThreadData_findThread_self s tid f]

theorem withThreadData_slotOf_other (s : CollectorState) (tid tid' : Nat)
    (f : PerThreadData → PerThreadData × List Action) (h : tid' ≠ tid) :
    (s.withThreadData tid f).1.slotOf tid' = s.slotOf tid' := by
  simp [CollectorState.slotOf, withThreadData_findThread_other s tid tid' f h]

/-! ## Claim theorems -/

/-- C4. `IsEnabled` performs an acquire-load of the global enable gate and
returns `true` exactly when the loaded value equals 1
(collector.h:94-96). -/
theorem isEnabled_acquire_load_iff_one (s : CollectorState) :
    ((IsEnabled s).1 = true ↔ s.isEnabledGate = 1) ∧
    (IsEnabled s).2 = Action.loadEnabled .acquire s.isEnabledGate := by
  refine ⟨?_, rfl⟩
  simp [IsEnabled]

/-- C3. Every per-thread append operation follows the four-step protocol:
`writing := true` (release), acquire-load of the current event list, only
writes to that list, then `writing := false` (release); and the slot's
writing flag is `false` on return. -/
theorem slot_append_follows_protocol (op : SlotOp) (now : TimeStamp)
    (t : PerThreadData) :
    followsAppendProtocol (runSlotOp op now t).2 ∧
    (runSlotOp op now t).1.writing = false := by
  cases op <;>
    first
    | exact ⟨⟨[.listWrite], rfl, by simp⟩, rfl⟩
    | exact ⟨⟨[.listWrite, .listWrite], rfl, by simp⟩, rfl⟩

/-- C9. The `static_assert` on the variadic data-argument packs accepts
every pack formed of (key, value) pairs and rejects every pack of odd
cardinality at compile time. -/
theorem data_args_static_assert_even :
    (∀ pairs : List (TraceKey × StorableValue),
      dataPairsStaticAssert (flattenPack pairs).length = true) ∧
    (∀ pack : List PackArg, pack.length % 2 = 1 →
      dataPairsStaticAssert pack.length = false) := by
  constructor
  · intro pairs
    have hlen : (flattenPack pairs).length = 2 * pairs.length := by
      induction pairs with
      | nil => rfl
      | cons p rest ih => simp [flattenPack, List.flatMap_cons] at ih ⊢; omega
    simp [dataPairsStaticAssert, hlen, Nat.mul_mod_right]
  · intro pack h
    simp [dataPairsStaticAssert, h]

/-- Witness for C9 at a concrete even pack and a concrete odd pack. -/
theorem data_args_static_assert_even_witness :
    dataPairsStaticAssert
      (flattenPack [(1, StorableValue.scalar [2])]).length = true ∧
    dataPairsStaticAssert [PackArg.key 1].length = false :=
  ⟨data_args_static_assert_even.1 [(1, StorableValue.scalar [2])],
   data_args_static_assert_even.2 [PackArg.key 1] (by decide)⟩

theorem endScopeImpl_after_begin (l : EventList) (key : TraceKey)
    (cat : TraceCategoryId) (t1 now : TimeStamp) :
    (l.emplaceBack ⟨.Begin, key, cat, t1, .empty⟩).endScopeImpl key cat now
      = { l with events := l.events ++ [⟨.Timespan, key, cat, now, .time t1⟩] } := by
  unfold EventList.endScopeImpl
  simp [EventList.emplaceBack, List.getLast?_concat, List.dropLast_concat]

theorem endScopeImpl_mismatch (l : EventList) (e : TraceEvent)
    (key : TraceKey) (cat : TraceCategoryId) (now : TimeStamp)
    (h : ¬ (e.type = .Begin ∧ e.key = key ∧ e.cat = cat)) :
    (l.emplaceBack e).endScopeImpl key cat now
      = (l.emplaceBack e).emplaceBack ⟨.End, key, cat, now, .empty⟩ := by
  unfold EventList.endScopeImpl
  simp only [EventList.emplaceBack, List.getLast?_concat]
  rw [if_neg h]

/-- C6. `begin_scope` appends a `Begin` event; `end_scope` peeks the
immediately preceding event and, when it is the matching `Begin` with the
same key and category, rewrites the pair into a single `Timespan` event,
otherwise it appends an `End` event; so a `begin_scope(k)`/`end_scope(k)`
pair with nothing in between yields exactly one `Timespan` event framing
the interval. -/
theorem scope_fusion_single_timespan (t : PerThreadData) (key : TraceKey)
    (cat : TraceCategoryId) (t1 t2 : TimeStamp) :
    (runSlotOp (.beginScope key cat) t1 t).1.events.events
      = t.events.events ++ [⟨.Begin, key, cat, t1, .empty⟩] ∧
    (runSlotOp (.endScope key cat) t2
        (runSlotOp (.beginScope key cat) t1 t).1).1.events.events
      = t.events.events ++ [⟨.Timespan, key, cat, t2, .time t1⟩] ∧
    (∀ key' cat', ¬ (key' = key ∧ cat' = cat) →
      (runSlotOp (.endScope key' cat') t2
          (runSlotOp (.beginScope key cat) t1 t).1).1.events.events
        = t.events.events ++ [⟨.Begin, key, cat, t1, .empty⟩,
            ⟨.End, key', cat', t2, .empty⟩]) := by
  refine ⟨rfl, ?_, ?_⟩
  · show ((t.events.emplaceBack
        ⟨.Begin, key, cat, t1, .empty⟩).endScopeImpl key cat t2).events = _
    rw [endScopeImpl_after_begin]
  · intro key' cat' h
    show ((t.events.emplaceBack
        ⟨.Begin, key, cat, t1, .empty⟩).endScopeImpl key' cat' t2).events = _
    rw [endScopeImpl_mismatch]
    · simp [EventList.emplaceBack]
    · simpa using fun h2 h3 => h ⟨h2.symm, h3.symm⟩

/-- Witness for C6: fusing a concrete begin/end pair yields one Timespan;
a mismatched end appends an End event instead. -/
theorem scope_fusion_single_timespan_witness :
    (runSlotOp (.endScope 1 0) 9
        (runSlotOp (.beginScope 1 0) 5 (freshPerThreadData 0)).1).1.events.events
      = [⟨.Timespan, 1, 0, 9, .time 5⟩] ∧
    (runSlotOp (.endScope 2 0) 9
        (runSlotOp (.beginScope 1 0) 5 (freshPerThreadData 0)).1).1.events.events
      = [⟨.Begin, 1, 0, 5, .empty⟩, ⟨.End, 2, 0, 9, .empty⟩] := by
  have h := scope_fusion_single_timespan (freshPerThreadData 0) 1 0 5 9
  exact ⟨by simpa using h.2.1, by simpa using h.2.2 2 0 (by decide)⟩

/-- C7. The `_StoreData` compile-time dispatch: a non-pointer value of at
most pointer size is stored inline in the appended `Data` event and does
not touch the arena; a larger value, and C/std::string values, are copied
into the list's arena first and the appended `Data` event's payload is the
arena pointer. -/
theorem storeData_payload_dispatch (t : PerThreadData) (key : TraceKey)
    (cat : TraceCategoryId) (now : TimeStamp) :
    (∀ bytes : List Nat, bytes.length ≤ uintptrSize →
      (storeDataSlot key cat (.scalar bytes) now t).1.events.events
        = t.events.events ++ [⟨.Data, key, cat, now, .bits (encodeBits bytes)⟩] ∧
      (storeDataSlot key cat (.scalar bytes) now t).1.events.arena
        = t.events.arena) ∧
    (∀ bytes : List Nat, uintptrSize < bytes.length →
      (storeDataSlot key cat (.scalar bytes) now t).1.events.events
        = t.events.events ++ [⟨.Data, key, cat, now, .ptr t.events.arena.length⟩] ∧
      (storeDataSlot key cat (.scalar bytes) now t).1.events.arena
        = t.events.arena ++ [bytes]) ∧
    (∀ bytes : List Nat,
      (storeDataSlot key cat (.cString bytes) now t).1.events.events
        = t.events.events ++ [⟨.Data, key, cat, now, .ptr t.events.arena.length⟩] ∧
      (storeDataSlot key cat (.cString bytes) now t).1.events.arena
        = t.events.arena ++ [cStr bytes]) ∧
    (∀ bytes : List Nat,
      (storeDataSlot key cat (.stdString bytes) now t).1.events.events
        = t.events.events ++ [⟨.Data, key, cat, now, .ptr t.events.arena.length⟩] ∧
      (storeDataSlot key cat (.stdString bytes) now t).1.events.arena
        = t.events.arena ++ [cStr bytes]) := by
  refine ⟨fun bytes hle => ?_, fun bytes hgt => ?_, fun bytes => ?_, fun bytes => ?_⟩
  · simp [storeDataSlot, if_pos hle, runSlotOp, PerThreadData.withAtomicRef,
      EventList.emplaceBack]
  · simp [storeDataSlot, if_neg (not_le.mpr hgt), runSlotOp,
      PerThreadData.withAtomicRef, EventList.emplaceBack, EventList.storeBytes,
      LargeData.storedBytes]
  · simp [storeDataSlot, runSlotOp, PerThreadData.withAtomicRef,
      EventList.emplaceBack, EventList.storeBytes, LargeData.storedBytes]
  · simp [storeDataSlot, runSlotOp, PerThreadData.withAtomicRef,
      EventList.emplaceBack, EventList.storeBytes, LargeData.storedBytes]

/-- Witness for C7 at concrete values: a 2-byte scalar is inlined, a
9-byte scalar and a std::string go to the arena. -/
theorem storeData_payload_dispatch_witness :
    (storeDataSlot 3 0 (.scalar [1, 2]) 7 (freshPerThreadData 0)).1.events.events
      = [⟨.Data, 3, 0, 7, .bits (encodeBits [1, 2])⟩] ∧
    (storeDataSlot 3 0 (.scalar [1, 2, 3, 4, 5, 6, 7, 8, 9]) 7
        (freshPerThreadData 0)).1.events.arena
      = [[1, 2, 3, 4, 5, 6, 7, 8, 9]] ∧
    (storeDataSlot 3 0 (.stdString [104, 105]) 7
        (freshPerThreadData 0)).1.events.arena
      = [[104, 105]] := by
  have h1 := (storeData_payload_dispatch (freshPerThreadData 0) 3 0 7).1
    [1, 2] (by decide)
  have h2 := (storeData_payload_dispatch (freshPerThreadData 0) 3 0 7).2.1
    [1, 2, 3, 4, 5, 6, 7, 8, 9] (by decide)
  have h3 := (storeData_payload_dispatch (freshPerThreadData 0) 3 0 7).2.2.2
    [104, 105]
  exact ⟨by simpa using h1.1, by simpa using h2.2,
    by simpa [cStr] using h3.2⟩

/-- C8. With the gate enabled, `RecordCounterDelta` appends a
`CounterDelta` event and `RecordCounterValue` a `CounterValue` event for
the calling thread; the two kinds are distinct and each event carries the
bit pattern of the passed f64 exactly. -/
theorem counter_events_distinct_bitwise (s : CollectorState) (tid : Nat)
    (key : TraceKey) (bits : Nat) (cat : TraceCategoryId) (now : TimeStamp)
    (h : (IsEnabled s).1 = true) :
    (runOp (.recordCounterDelta key bits cat) tid now s).1.eventsOf tid
      = s.eventsOf tid ++ [⟨.CounterDelta, key, cat, now, .bits bits⟩] ∧
    (runOp (.recordCounterValue key bits cat) tid now s).1.eventsOf tid
      = s.eventsOf tid ++ [⟨.CounterValue, key, cat, now, .bits bits⟩] ∧
    EventType.CounterDelta ≠ EventType.CounterValue := by
  have h' : s.isEnabledGate = 1 := by simpa [IsEnabled] using h
  refine ⟨?_, ?_, by decide⟩ <;>
    simp [runOp, IsEnabled, h', CollectorState.eventsOf,
      withThreadData_slotOf_self, runSlotOp, PerThreadData.withAtomicRef,
      EventList.emplaceBack]

/-- Witness for C8: recording a counter delta and value of 1.5
(f64 bit pattern 4609434218613702656) with the gate on. -/
theorem counter_events_distinct_bitwise_witness :
    (runOp (.recordCounterDelta 2 4609434218613702656 0) 0 9
        (⟨1, []⟩ : CollectorState)).1.eventsOf 0
      = [⟨.CounterDelta, 2, 0, 9, .bits 4609434218613702656⟩] ∧
    (runOp (.recordCounterValue 2 4609434218613702656 0) 0 9
        (⟨1, []⟩ : CollectorState)).1.eventsOf 0
      = [⟨.CounterValue, 2, 0, 9, .bits 4609434218613702656⟩] := by
  have h := counter_events_distinct_bitwise (⟨1, []⟩ : CollectorState) 0 2
    4609434218613702656 0 9 (by decide)
  refine ⟨?_, ?_⟩
  · have := h.1
    simpa [CollectorState.eventsOf, CollectorState.slotOf,
      CollectorState.findThread, freshPerThreadData, EventList.empty] using this
  · have := h.2.1
    simpa [CollectorState.eventsOf, CollectorState.slotOf,
      CollectorState.findThread, freshPerThreadData, EventList.empty] using this

/-- C2. With the enable gate off, every record operation leaves the whole
collector state (and so every per-thread slot) unchanged and performs only
the gate load — no allocation and no mutation; `BeginEvent`/`EndEvent`
return the sentinel timestamp 0. -/
theorem gate_off_record_ops_noop (op : CollectorOp) (tid : Nat)
    (now : TimeStamp) (s : CollectorState)
    (h : (IsEnabled s).1 = false) :
    (runOp op tid now s).1 = s ∧
    (∀ a ∈ (runOp op tid now s).2.2, a.mutates = false) ∧
    (∀ key cat, op = .beginEvent key cat ∨ op = .endEvent key cat →
      (runOp op tid now s).2.1 = some 0) := by
  have h' : (s.isEnabledGate == 1) = false := by simpa [IsEnabled] using h
  cases op <;> simp [runOp, IsEnabled, h', Action.mutates]

/-- Witness for C2: a `begin_event` with the gate off leaves the state
untouched and returns timestamp 0. -/
theorem gate_off_record_ops_noop_witness :
    (IsEnabled (⟨0, []⟩ : CollectorState)).1 = false ∧
    (runOp (.beginEvent 1 0) 0 5 (⟨0, []⟩ : CollectorState)).1
      = (⟨0, []⟩ : CollectorState) ∧
    (runOp (.beginEvent 1 0) 0 5 (⟨0, []⟩ : CollectorState)).2.1 = some 0 :=
  ⟨by decide,
   (gate_off_record_ops_noop (.beginEvent 1 0) 0 5 _ (by decide)).1,
   (gate_off_record_ops_noop (.beginEvent 1 0) 0 5 _ (by decide)).2.2 1 0
     (Or.inl rfl)⟩

/-- C10. With the gate enabled, `ScopeArgs` with a category and zero
key/value pairs appends no events to any thread's list (the variadic
recursion terminates in its base case), but still creates and registers
the caller's per-thread slot. -/
theorem scopeArgs_empty_pack_no_events (s : CollectorState) (tid : Nat)
    (cat : TraceCategoryId) (now : TimeStamp)
    (h : (IsEnabled s).1 = true) :
    ((runOp (.scopeArgs cat []) tid now s).1.findThread tid).isSome = true ∧
    (∀ tid', (runOp (.scopeArgs cat []) tid now s).1.eventsOf tid'
      = s.eventsOf tid') := by
  have h' : s.isEnabledGate = 1 := by simpa [IsEnabled] using h
  have hrun : (runOp (.scopeArgs cat []) tid now s).1
      = (s.withThreadData tid (storeDataFold [] cat now)).1 := by
    simp [runOp, IsEnabled, h']
  constructor
  · rw [hrun, withThreadData_findThread_self]
    rfl
  · intro tid'
    by_cases ht : tid' = tid
    · subst ht
      rw [hrun]
      unfold CollectorState.eventsOf
      rw [withThreadData_slotOf_self]
      rfl
    · rw [hrun]
      unfold CollectorState.eventsOf
      rw [withThreadData_slotOf_other _ _ _ _ ht]

/-- Witness for C10: an empty-pack `ScopeArgs` from a new thread with the
gate on registers the slot and records nothing. -/
theorem scopeArgs_empty_pack_no_events_witness :
    ((runOp (.scopeArgs 0 []) 3 7
        (⟨1, []⟩ : CollectorState)).1.findThread 3).isSome = true ∧
    (runOp (.scopeArgs 0 []) 3 7 (⟨1, []⟩ : CollectorState)).1.eventsOf 3
      = [] := by
  have h := scopeArgs_empty_pack_no_events (⟨1, []⟩ : CollectorState) 3 0 7
    (by decide)
  refine ⟨h.1, ?_⟩
  have h2 := h.2 3
  simpa [CollectorState.eventsOf, CollectorState.slotOf,
    CollectorState.findThread, freshPerThreadData, EventList.empty] using h2

theorem filterMap_nonempty_flatten (l : List (Nat × PerThreadData)) :
    ((l.filterMap (fun p =>
        if p.2.events.events.isEmpty then none
        else some (p.1, p.2.events))).map (fun p => p.2.events)).flatten
      = (l.map (fun p => p.2.events.events)).flatten := by
  induction l with
  | nil => rfl
  | cons p rest ih =>
    by_cases hp : p.2.events.events = []
    · simp only [List.filterMap_cons, hp, List.isEmpty_nil, if_true,
        List.map_cons, List.flatten_cons, List.nil_append]
      exact ih
    · have hb : p.2.events.events.isEmpty = false := by
        simp [List.isEmpty_iff, hp]
      simp only [List.filterMap_cons, hb, Bool.false_eq_true, if_false,
        List.map_cons, List.flatten_cons]
      rw [ih]

/-- A collector state with the gate on and one recorded event. -/
def c1state : CollectorState :=
  ⟨1, [(0, ⟨0, false, ⟨[⟨.Begin, 1, 0, 5, .empty⟩], []⟩⟩)]⟩

/-- C1 counterexample: at a state holding recorded events,
`CreateCollection` forms the collection and issues it with the
`TraceCollectionAvailable` notice, but hands nothing back to its caller —
the returned value is `none` (the `void` return of
`TRACE_API void CreateCollection();`), not the Collection. -/
theorem createCollection_void_return_counterexample :
    c1state.allEvents ≠ [] ∧
    (CreateCollection c1state).returned = none ∧
    (CreateCollection c1state).notice ≠ none := by decide

/-- C1 (amended). `CreateCollection` produces a Collection snapshot from
all the events recorded in the collector and delivers it via the
`TraceCollectionAvailable` notice; the call returns `void` (no Collection
is handed back to the caller), and tracing restarts: every slot is left
with a fresh empty list. -/
theorem createCollection_snapshot_via_notice (s : CollectorState) :
    (CreateCollection s).returned = none ∧
    (CreateCollection s).notice = some ⟨s.snapshotLists⟩ ∧
    (TraceCollection.mk s.snapshotLists).allEvents = s.allEvents ∧
    (∀ p ∈ (CreateCollection s).state.threads, p.2.events = EventList.empty) := by
  refine ⟨rfl, rfl, ?_, ?_⟩
  · show ((s.snapshotLists.map (fun p => p.2.events)).flatten) = _
    unfold CollectorState.snapshotLists CollectorState.allEvents
    exact filterMap_nonempty_flatten s.threads
  · intro p hp
    simp only [CreateCollection, List.mem_map] at hp
    obtain ⟨q, _, hq⟩ := hp
    rw [← hq]

/-! ## Evolution of buffers under further record operations

The arena of a slot only ever grows (its addresses are stable), the event
count never shrinks, and a recorded non-`Begin` event keeps its position
and value — only a trailing `Begin` can be rewritten by scope fusion. -/

theorem getElem?_append_left_of_some {α : Type} (l ext : List α) (j : Nat)
    (a : α) (h : l[j]? = some a) : (l ++ ext)[j]? = some a := by
  have hj : j < l.length := (List.getElem?_eq_some.mp h).1
  rw [List.getElem?_append]
  simp [hj, h]

/-- How an `EventList` may evolve under record operations. -/
def SlotEvolves (a b : EventList) : Prop :=
  (∃ ext, b.arena = a.arena ++ ext) ∧
  a.events.length ≤ b.events.length ∧
  (∀ (j : Nat) (e : TraceEvent), e.type ≠ .Begin →
    a.events[j]? = some e → b.events[j]? = some e)

theorem slotEvolves_refl (a : EventList) : SlotEvolves a a :=
  ⟨⟨[], by simp⟩, Nat.le_refl _, fun _ _ _ h => h⟩

theorem slotEvolves_trans {a b c : EventList} (h1 : SlotEvolves a b)
    (h2 : SlotEvolves b c) : SlotEvolves a c := by
  obtain ⟨⟨e1, ha1⟩, hl1, hp1⟩ := h1
  obtain ⟨⟨e2, ha2⟩, hl2, hp2⟩ := h2
  exact ⟨⟨e1 ++ e2, by rw [ha2, ha1, List.append_assoc]⟩,
    Nat.le_trans hl1 hl2,
    fun j e ht hj => hp2 j e ht (hp1 j e ht hj)⟩

theorem slotEvolves_emplaceBack (l : EventList) (e : TraceEvent) :
    SlotEvolves l (l.emplaceBack e) := by
  refine ⟨⟨[], by simp [EventList.emplaceBack]⟩, ?_, ?_⟩
  · simp [EventList.emplaceBack]
  · intro j e' _ hj
    exact getElem?_append_left_of_some _ _ _ _ hj

theorem slotEvolves_storeBytes (l : EventList) (bs : List Nat) :
    SlotEvolves l (l.storeBytes bs).1 :=
  ⟨⟨[bs], rfl⟩, Nat.le_refl _, fun _ _ _ h => h⟩

theorem slotEvolves_endScopeImpl (l : EventList) (key : TraceKey)
    (cat : TraceCategoryId) (now : TimeStamp) :
    SlotEvolves l (l.endScopeImpl key cat now) := by
  unfold EventList.endScopeImpl
  cases hl : l.events.getLast? with
  | none => exact slotEvolves_emplaceBack l _
  | some e =>
    show SlotEvolves l
      (if e.type = EventType.Begin ∧ e.key = key ∧ e.cat = cat then
        { events := l.events.dropLast ++
            [⟨.Timespan, key, cat, now, .time e.time⟩],
          arena := l.arena }
      else l.emplaceBack ⟨.End, key, cat, now, .empty⟩)
    by_cases hc : e.type = .Begin ∧ e.key = key ∧ e.cat = cat
    · rw [if_pos hc]
      have hne : l.events ≠ [] := by
        intro h0
        rw [h0] at hl
        simp at hl
      have hpos : 0 < l.events.length := List.length_pos.mpr hne
      refine ⟨⟨[], by simp⟩, ?_, ?_⟩
      · simp only [List.length_append, List.length_dropLast, List.length_cons,
          List.length_nil]
        omega
      · intro j e' ht hj
        have hjlt : j < l.events.length := (List.getElem?_eq_some.mp hj).1
        rcases Nat.lt_or_ge j (l.events.length - 1) with hlt | hge
        · have hdrop : l.events.dropLast[j]? = some e' := by
            rw [List.dropLast_eq_take, List.getElem?_take]
            simp [hlt, hj]
          exact getElem?_append_left_of_some _ _ _ _ hdrop
        · have hj_eq : j = l.events.length - 1 := by omega
          rw [List.getLast?_eq_getElem?] at hl
          rw [hj_eq, hl] at hj
          have : e = e' := Option.some.inj hj
          exact absurd hc.1 (this ▸ ht)
    · rw [if_neg hc]
      exact slotEvolves_emplaceBack l _

theorem slotEvolves_runSlotOp (op : SlotOp) (now : TimeStamp)
    (t : PerThreadData) :
    SlotEvolves t.events (runSlotOp op now t).1.events := by
  cases op <;>
    first
    | exact slotEvolves_emplaceBack t.events _
    | exact slotEvolves_endScopeImpl t.events _ _ now
    | exact slotEvolves_trans (slotEvolves_storeBytes t.events _)
        (slotEvolves_emplaceBack _ _)

theorem slotEvolves_storeDataSlot (key : TraceKey) (cat : TraceCategoryId)
    (v : StorableValue) (now : TimeStamp) (t : PerThreadData) :
    SlotEvolves t.events (storeDataSlot key cat v now t).1.events := by
  cases v with
  | scalar bytes =>
    simp only [storeDataSlot]
    split
    · exact slotEvolves_runSlotOp _ now t
    · exact slotEvolves_runSlotOp _ now t
  | cString bytes => exact slotEvolves_runSlotOp _ now t
  | stdString bytes => exact slotEvolves_runSlotOp _ now t

theorem slotEvolves_storeDataFold (pack : List (TraceKey × StorableValue))
    (cat : TraceCategoryId) (now : TimeStamp) (t : PerThreadData) :
    SlotEvolves t.events (storeDataFold pack cat now t).1.events := by
  induction pack generalizing t with
  | nil => exact slotEvolves_refl _
  | cons p rest ih =>
    exact slotEvolves_trans (slotEvolves_storeDataSlot p.1 cat p.2 now t)
      (ih _)

/-- How the whole collector may evolve under record operations: each
thread's buffer evolves, and a registered slot stays registered. -/
def CollectorEvolves (s s' : CollectorState) : Prop :=
  ∀ tid, SlotEvolves (s.slotOf tid).events ((s'.slotOf tid).events) ∧
    ((s.findThread tid).isSome = true → (s'.findThread tid).isSome = true)

theorem collectorEvolves_refl (s : CollectorState) : CollectorEvolves s s :=
  fun _ => ⟨slotEvolves_refl _, fun h => h⟩

theorem collectorEvolves_trans {s1 s2 s3 : CollectorState}
    (h1 : CollectorEvolves s1 s2) (h2 : CollectorEvolves s2 s3) :
    CollectorEvolves s1 s3 :=
  fun tid => ⟨slotEvolves_trans (h1 tid).1 (h2 tid).1,
    fun h => (h2 tid).2 ((h1 tid).2 h)⟩

theorem collectorEvolves_withThreadData (s : CollectorState) (tid : Nat)
    (f : PerThreadData → PerThreadData × List Action)
    (hf : ∀ t, SlotEvolves t.events (f t).1.events) :
    CollectorEvolves s (s.withThreadData tid f).1 := by
  intro tid'
  by_cases ht : tid' = tid
  · subst ht
    constructor
    · rw [withThreadData_slotOf_self]
      exact hf _
    · intro _
      rw [withThreadData_findThread_self]
      rfl
  · constructor
    · rw [withThreadData_slotOf_other _ _ _ _ ht]
      exact slotEvolves_refl _
    · intro hs
      rw [withThreadData_findThread_other _ _ _ _ ht]
      exact hs

theorem runOp_fst_gate_off (op : CollectorOp) (tid : Nat) (now : TimeStamp)
    (s : CollectorState) (h : (IsEnabled s).1 = false) :
    (runOp op tid now s).1 = s := by
  have h' : (s.isEnabledGate == 1) = false := by simpa [IsEnabled] using h
  cases op <;> simp [runOp, IsEnabled, h']

theorem collectorEvolves_runOp (op : CollectorOp) (tid : Nat)
    (now : TimeStamp) (s : CollectorState) :
    CollectorEvolves s (runOp op tid now s).1 := by
  by_cases h : (IsEnabled s).1 = true
  · have h' : s.isEnabledGate = 1 := by simpa [IsEnabled] using h
    cases op with
    | beginEvent key cat =>
      rw [show (runOp (.beginEvent key cat) tid now s).1
          = (s.withThreadData tid (runSlotOp (.beginEventOp key cat) now)).1
        by simp [runOp, IsEnabled, h']]
      exact collectorEvolves_withThreadData _ _ _
        (fun t => slotEvolves_runSlotOp _ now t)
    | endEvent key cat =>
      rw [show (runOp (.endEvent key cat) tid now s).1
          = (s.withThreadData tid (runSlotOp (.endEventOp key cat) now)).1
        by simp [runOp, IsEnabled, h']]
      exact collectorEvolves_withThreadData _ _ _
        (fun t => slotEvolves_runSlotOp _ now t)
    | beginScope key cat =>
      rw [show (runOp (.beginScope key cat) tid now s).1
          = (s.withThreadData tid (runSlotOp (.beginScope key cat) now)).1
        by simp [runOp, IsEnabled, h']]
      exact collectorEvolves_withThreadData _ _ _
        (fun t => slotEvolves_runSlotOp _ now t)
    | endScope key cat =>
      rw [show (runOp (.endScope key cat) tid now s).1
          = (s.withThreadData tid (runSlotOp (.endScope key cat) now)).1
        by simp [runOp, IsEnabled, h']]
      exact collectorEvolves_withThreadData _ _ _
        (fun t => slotEvolves_runSlotOp _ now t)
    | scope key start cat =>
      rw [show (runOp (.scope key start cat) tid now s).1
          = (s.withThreadData tid (runSlotOp (.scopeEvent key start cat) now)).1
        by simp [runOp, IsEnabled, h']]
      exact collectorEvolves_withThreadData _ _ _
        (fun t => slotEvolves_runSlotOp _ now t)
    | storeData key v cat =>
      rw [show (runOp (.storeData key v cat) tid now s).1
          = (s.withThreadData tid (storeDataSlot key cat v now)).1
        by simp [runOp, IsEnabled, h']]
      exact collectorEvolves_withThreadData _ _ _
        (fun t => slotEvolves_storeDataSlot key cat v now t)
    | recordCounterDelta key bits cat =>
      rw [show (runOp (.recordCounterDelta key bits cat) tid now s).1
          = (s.withThreadData tid (runSlotOp (.counterDelta key bits cat) now)).1
        by simp [runOp, IsEnabled, h']]
      exact collectorEvolves_withThreadData _ _ _
        (fun t => slotEvolves_runSlotOp _ now t)
    | recordCounterValue key bits cat =>
      rw [show (runOp (.recordCounterValue key bits cat) tid now s).1
          = (s.withThreadData tid (runSlotOp (.counterValue key bits cat) now)).1
        by simp [runOp, IsEnabled, h']]
      exact collectorEvolves_withThreadData _ _ _
        (fun t => slotEvolves_runSlotOp _ now t)
    | scopeArgs cat pack =>
      rw [show (runOp (.scopeArgs cat pack) tid now s).1
          = (s.withThreadData tid (storeDataFold pack cat now)).1
        by simp [runOp, IsEnabled, h']]
      exact collectorEvolves_withThreadData _ _ _
        (fun t => slotEvolves_storeDataFold pack cat now t)
  · rw [runOp_fst_gate_off op tid now s (by simpa using h)]
    exact collectorEvolves_refl s

theorem collectorEvolves_runOps (ops : List (CollectorOp × Nat × TimeStamp))
    (s : CollectorState) : CollectorEvolves s (runOps ops s) := by
  induction ops generalizing s with
  | nil => exact collectorEvolves_refl s
  | cons c rest ih =>
    exact collectorEvolves_trans (collectorEvolves_runOp c.1 c.2.1 c.2.2 s)
      (ih _)

theorem findThread_mem (s : CollectorState) (tid : Nat) (t : PerThreadData)
    (h : s.findThread tid = some t) : (tid, t) ∈ s.threads := by
  unfold CollectorState.findThread at h
  cases hq : s.threads.find? (fun p => p.1 == tid) with
  | none => rw [hq] at h; simp at h
  | some p =>
    rw [hq] at h
    simp only [Option.map_some'] at h
    have hp : (p.1 == tid) = true :=
      List.find?_some (p := fun q : Nat × PerThreadData => q.1 == tid) hq
    have hm := List.mem_of_find?_eq_some hq
    have hpe : p = (tid, t) := by
      cases p with
      | mk a b =>
        simp only at hp h
        exact Prod.ext (by simpa using hp) (by simpa using h)
    rw [← hpe]
    exact hm

/-- The round-trip property of one `store_data` of a string: the bytes
land in the caller's arena at a stable index, the appended `Data` event
points at them, and after any further record operations the harvested
list still yields exactly those bytes at that event's pointer. -/
def StoredStringReadback (s : CollectorState) (tid : Nat) (key : TraceKey)
    (cat : TraceCategoryId) (bytes : List Nat) (now : TimeStamp)
    (rest : List (CollectorOp × Nat × TimeStamp)) : Prop :=
  (runOp (.storeData key (.stdString bytes) cat) tid now s).1.arenaOf tid
      = s.arenaOf tid ++ [bytes] ∧
  (runOp (.storeData key (.stdString bytes) cat) tid now s).1.eventsOf tid
      = s.eventsOf tid
        ++ [⟨.Data, key, cat, now, .ptr (s.arenaOf tid).length⟩] ∧
  ∃ l : EventList,
    (tid, l) ∈ (runOps rest
        (runOp (.storeData key (.stdString bytes) cat) tid now s).1).snapshotLists ∧
    (CreateCollection (runOps rest
        (runOp (.storeData key (.stdString bytes) cat) tid now s).1)).notice
      = some ⟨(runOps rest
          (runOp (.storeData key (.stdString bytes) cat) tid now s).1).snapshotLists⟩ ∧
    l.events[(s.eventsOf tid).length]?
      = some ⟨.Data, key, cat, now, .ptr (s.arenaOf tid).length⟩ ∧
    l.arena[(s.arenaOf tid).length]? = some bytes

/-- C5 counterexample: storing the 3-byte string "a\x00b" (bytes
[97, 0, 98]) via `store_data` — the std::string specialization passes
`value.c_str()` to `StoreLargeData`, so the arena copy stops at the
embedded NUL: the harvested list holds [97], not the input bytes. -/
theorem storeData_embedded_nul_truncated :
    (CreateCollection (runOp (.storeData 5 (.stdString [97, 0, 98]) 0) 0 4
        (⟨1, []⟩ : CollectorState)).1).notice
      = some ⟨[(0, ⟨[⟨.Data, 5, 0, 4, .ptr 0⟩], [[97]]⟩)]⟩ ∧
    ([97] : List Nat) ≠ [97, 0, 98] := by decide

/-- C5 (amended). A string value passed to `store_data` is copied into the
event list's arena via its C-string image (the bytes up to the first NUL);
for every input string with no interior NUL byte, the stored string is
byte-identical when read back from the harvested list, across any further
growth of the list. -/
theorem storeData_readback_byte_identical (s : CollectorState) (tid : Nat)
    (key : TraceKey) (cat : TraceCategoryId) (bytes : List Nat)
    (now : TimeStamp) (rest : List (CollectorOp × Nat × TimeStamp))
    (hgate : (IsEnabled s).1 = true) (hnul : (0 : Nat) ∉ bytes) :
    StoredStringReadback s tid key cat bytes now rest := by
  have h' : s.isEnabledGate = 1 := by simpa [IsEnabled] using hgate
  have hcs : cStr bytes = bytes := by
    unfold cStr
    rw [List.takeWhile_eq_self_iff]
    intro x hx
    rw [decide_eq_true_eq]
    intro h0
    exact hnul (h0 ▸ hx)
  have hrun : (runOp (.storeData key (.stdString bytes) cat) tid now s).1
      = (s.withThreadData tid
          (storeDataSlot key cat (.stdString bytes) now)).1 := by
    simp [runOp, IsEnabled, h']
  have hslot : (runOp (.storeData key (.stdString bytes) cat) tid now s).1.slotOf tid
      = (storeDataSlot key cat (.stdString bytes) now (s.slotOf tid)).1 := by
    rw [hrun, withThreadData_slotOf_self]
  have hevents : (storeDataSlot key cat (.stdString bytes) now (s.slotOf tid)).1.events.events
      = (s.slotOf tid).events.events
        ++ [⟨.Data, key, cat, now, .ptr (s.slotOf tid).events.arena.length⟩] := rfl
  have harena : (storeDataSlot key cat (.stdString bytes) now (s.slotOf tid)).1.events.arena
      = (s.slotOf tid).events.arena ++ [bytes] := by
    show (s.slotOf tid).events.arena ++ [cStr bytes] = _
    rw [hcs]
  have hsome1 : ((runOp (.storeData key (.stdString bytes) cat) tid now s).1.findThread tid).isSome = true := by
    rw [hrun, withThreadData_findThread_self]
    rfl
  refine ⟨?_, ?_, ?_⟩
  · show ((runOp (.storeData key (.stdString bytes) cat) tid now s).1.slotOf tid).events.arena = _
    rw [hslot, harena]
    rfl
  · show ((runOp (.storeData key (.stdString bytes) cat) tid now s).1.slotOf tid).events.events = _
    rw [hslot, hevents]
    rfl
  · have hev := collectorEvolves_runOps rest
      (runOp (.storeData key (.stdString bytes) cat) tid now s).1 tid
    have hsome2 := hev.2 hsome1
    obtain ⟨t2, ht2⟩ : ∃ t2, (runOps rest
        (runOp (.storeData key (.stdString bytes) cat) tid now s).1).findThread tid
          = some t2 := by
      cases hq : (runOps rest
          (runOp (.storeData key (.stdString bytes) cat) tid now s).1).findThread tid with
      | none => rw [hq] at hsome2; simp at hsome2
      | some t2 => exact ⟨t2, rfl⟩
    have hslot2 : (runOps rest
        (runOp (.storeData key (.stdString bytes) cat) tid now s).1).slotOf tid = t2 := by
      unfold CollectorState.slotOf
      rw [ht2]
      rfl
    obtain ⟨⟨ext, hext⟩, hlen, hpres⟩ := hev.1
    rw [hslot2] at hext hlen hpres
    rw [hslot] at hext hlen hpres
    have hevt : t2.events.events[(s.slotOf tid).events.events.length]?
        = some ⟨.Data, key, cat, now, .ptr (s.slotOf tid).events.arena.length⟩ := by
      refine hpres _ _ (by simp) ?_
      rw [hevents]
      exact List.getElem?_concat_length _ _
    have har : t2.events.arena[(s.slotOf tid).events.arena.length]?
        = some bytes := by
      rw [hext, harena]
      refine getElem?_append_left_of_some _ _ _ _ ?_
      exact List.getElem?_concat_length _ _
    have hne : t2.events.events ≠ [] := by
      rw [hevents] at hlen
      intro h0
      rw [h0] at hlen
      simp at hlen
    have hsnap : (tid, t2.events) ∈ (runOps rest
        (runOp (.storeData key (.stdString bytes) cat) tid now s).1).snapshotLists := by
      unfold CollectorState.snapshotLists
      rw [List.mem_filterMap]
      refine ⟨(tid, t2), findThread_mem _ _ _ ht2, ?_⟩
      have hb : t2.events.events.isEmpty = false := by
        simp [List.isEmpty_iff, hne]
      simp [hb]
    exact ⟨t2.events, hsnap, rfl, hevt, har⟩

/-- Witness for C5 at a concrete NUL-free string, with one further store
forcing the list to grow before the harvest. -/
theorem storeData_readback_byte_identical_witness :
    (IsEnabled (⟨1, []⟩ : CollectorState)).1 = true ∧
    (0 : Nat) ∉ [104, 105] ∧
    StoredStringReadback (⟨1, []⟩ : CollectorState) 0 5 0 [104, 105] 4
      [(.storeData 6 (.stdString [106]) 0, 0, 8)] :=
  ⟨by decide, by decide,
   storeData_readback_byte_identical (⟨1, []⟩ : CollectorState) 0 5 0
     [104, 105] 4 [(.storeData 6 (.stdString [106]) 0, 0, 8)]
     (by decide) (by decide)⟩

end TraceModel
